import Mathlib

/-!
Verification of the structural duplicate-detection engine of `copies.rs`
(lints `IFS_SAME_COND`, `IF_SAME_THEN_ELSE`, `MATCH_SAME_ARMS`).

The Rust source is shallowly embedded: the generic duplicate search
`search_same`, the `if`-chain shape extractor `if_sequence`, the pattern
binding walk `bindings`, the per-lint drivers and the `check_expr` entry
point are translated to executable Lean functions.  The structural hasher
(`SpanlessHash`), the structural comparator (`SpanlessEq`), the macro
predicate (`in_macro`), the parent lookup (`get_parent_expr`) and the type
oracle (`cx.tcx.pat_ty`) live outside this file's source and are taken as
opaque function parameters, exactly as `search_same` itself is generic in
`hash` and `eq`.
-/

set_option autoImplicit false

namespace Copies

/-! ## Association-list model of `std::collections::HashMap`

The map is only accessed through `entry` (lookup by key, insert when
vacant), so an association list with unique keys is a faithful model.
`assocFind?` returns the binding of the first entry with the given key. -/

def assocFind? {V : Type} (k : Nat) : List (Nat × V) → Option V
  | [] => Option.none
  | (k', v) :: rest => if k == k' then Option.some v else assocFind? k rest

/-- Choose the left option when present, otherwise the right one. -/
def optOr {α : Type} : Option α → Option α → Option α
  | Option.some v, _ => Option.some v
  | Option.none, o => o

/-! ## `search_same` (copies.rs, lines 233–266)

`search_same(exprs, hash, eq)` has a trivial path for fewer than two
items, a direct-comparison fast path for exactly two, and a hash-bucket
loop for three or more.  The bucket table maps a digest to the `Vec` of
items inserted under it. -/

/-- Body of the `for o in o.get()` loop: first item of the bucket that is
`eq` to the new item `x` (existing item is the left argument of `eq`). -/
def bucket_check {T : Type} (eq : T → T → Bool) (x : T) : List T → Option T
  | [] => Option.none
  | o :: os => if eq o x then Option.some o else bucket_check eq x os

/-- One iteration of the `for expr in exprs` loop of `search_same`:
the `match map.entry(hash(expr))` statement.  Returns the duplicate pair
found (if any) together with the updated bucket table.  Note that the
`Occupied` arm leaves the table unchanged even when no bucket item
matches: the new item is not appended to its bucket. -/
def search_same_step {T : Type} (hash : T → Nat) (eq : T → T → Bool)
    (m : List (Nat × List T)) (x : T) : Option (T × T) × List (Nat × List T) :=
  match assocFind? (hash x) m with
  | Option.some bucket =>
    match bucket_check eq x bucket with
    | Option.some o => (Option.some (o, x), m)
    | Option.none => (Option.none, m)
  | Option.none => (Option.none, m ++ [(hash x, [x])])

/-- The `for expr in exprs` loop of `search_same` over the remaining
items, carrying the bucket table. -/
def search_same_loop {T : Type} (hash : T → Nat) (eq : T → T → Bool) :
    List T → List (Nat × List T) → Option (T × T)
  | [], _ => Option.none
  | x :: xs, m =>
    match search_same_step hash eq m x with
    | (Option.some p, _) => Option.some p
    | (Option.none, m') => search_same_loop hash eq xs m'

/-- `search_same` (copies.rs 233–266): `None` for fewer than two items, a
direct `eq` comparison of the two items for exactly two, and the
hash-bucket loop for three or more. -/
def search_same {T : Type} (exprs : List T) (hash : T → Nat) (eq : T → T → Bool) :
    Option (T × T) :=
  if exprs.length < 2 then
    Option.none
  else if exprs.length == 2 then
    match exprs with
    | a :: b :: _ => if eq a b then Option.some (a, b) else Option.none
    | _ => Option.none
  else
    search_same_loop hash eq exprs []

/-- Number of times `search_same` evaluates `hash`: zero on the `< 2` and
`== 2` paths, once per item processed by the bucket loop. -/
def search_same_loop_hashCount {T : Type} (hash : T → Nat) (eq : T → T → Bool) :
    List T → List (Nat × List T) → Nat
  | [], _ => 0
  | x :: xs, m =>
    match search_same_step hash eq m x with
    | (Option.some _, _) => 1
    | (Option.none, m') => 1 + search_same_loop_hashCount hash eq xs m'

/-- Hash-call count of a full `search_same` run. -/
def search_same_hashCount {T : Type} (exprs : List T) (hash : T → Nat)
    (eq : T → T → Bool) : Nat :=
  if exprs.length < 2 then 0
  else if exprs.length == 2 then 0
  else search_same_loop_hashCount hash eq exprs []

/-- Equivalence used as a counterexample: items `1` and `2` are
equivalent to each other and nothing else is related.  Any constant hash
is consistent with it. -/
def eqOneTwo (x y : Nat) : Bool :=
  (x == 1 && y == 2) || (x == 2 && y == 1)

/-- On a two-element sequence the bucket loop agrees with the direct
comparison, provided `hash` is consistent with `eq` at the pair. -/
theorem search_same_loop_two {T : Type} (a b : T) (hash : T → Nat) (eq : T → T → Bool)
    (hcons : eq a b = true → hash a = hash b) :
    search_same_loop hash eq [a, b] [] =
      if eq a b then Option.some (a, b) else Option.none := by
  cases heq : eq a b with
  | true =>
    have hh : hash a = hash b := hcons heq
    simp [search_same_loop, search_same_step, assocFind?, bucket_check, hh, heq]
  | false =>
    by_cases hh : hash b = hash a
    · simp [search_same_loop, search_same_step, assocFind?, bucket_check, hh, heq]
    · simp [search_same_loop, search_same_step, assocFind?, bucket_check, hh, heq]

/-- C4: on a two-item sequence whose hash is consistent with `eq` at the
pair, `search_same` returns `some (a, b)` iff `eq a b`, evaluates `hash`
zero times, and agrees with the general hash-bucket loop run on the same
two-element sequence. -/
theorem search_same_two_fast_path {T : Type} (a b : T) (hash : T → Nat) (eq : T → T → Bool)
    (hcons : eq a b = true → hash a = hash b) :
    (search_same [a, b] hash eq = Option.some (a, b) ↔ eq a b = true) ∧
    search_same_hashCount [a, b] hash eq = 0 ∧
    search_same [a, b] hash eq = search_same_loop hash eq [a, b] [] := by
  have hfast : search_same [a, b] hash eq =
      if eq a b then Option.some (a, b) else Option.none := by
    simp [search_same]
  refine ⟨?_, ?_, ?_⟩
  · rw [hfast]; cases heq : eq a b <;> simp
  · simp [search_same_hashCount]
  · rw [hfast, search_same_loop_two a b hash eq hcons]

/-- Witness for C4: `a = b = 5`, constant hash, numeric equality. -/
theorem search_same_two_fast_path_witness :
    ((fun x y : Nat => x == y) 5 5 = true → (fun _ : Nat => 0) 5 = (fun _ : Nat => 0) 5) ∧
    ((search_same [5, 5] (fun _ : Nat => 0) (fun x y : Nat => x == y) = Option.some (5, 5) ↔
        (fun x y : Nat => x == y) 5 5 = true) ∧
      search_same_hashCount [5, 5] (fun _ : Nat => 0) (fun x y : Nat => x == y) = 0 ∧
      search_same [5, 5] (fun _ : Nat => 0) (fun x y : Nat => x == y) =
        search_same_loop (fun _ : Nat => 0) (fun x y : Nat => x == y) [5, 5] []) :=
  ⟨fun _ => rfl, search_same_two_fast_path 5 5 (fun _ => 0) (fun x y => x == y) (fun _ => rfl)⟩

/-- C1 (code bug, evaluated at the failing input): processing item `1`
against the bucket table `[(0, [0])]` — its digest bucket `[0]` is
non-empty and no bucket item is `eq` to it — leaves the table unchanged:
the item is NOT appended to its bucket.  Consequently the later item `2`,
which is equivalent to `1` (and hashes equal, the hash being constant),
is never found: the full run returns `none`. -/
theorem search_same_occupied_bucket_not_appended :
    search_same_step (fun _ : Nat => 0) eqOneTwo [(0, [0])] 1 = (Option.none, [(0, [0])]) ∧
    eqOneTwo 1 2 = true ∧
    search_same [0, 1, 2] (fun _ : Nat => 0) eqOneTwo = Option.none := by
  decide

/-- C2 (code bug, evaluated at the failing input): the sequence
`[0, 1, 2]` with a constant hash (hence equal on equivalent items) and an
equivalence relating exactly items `1` and `2` contains a mutually
equivalent pair, yet `search_same` returns `none` instead of
`some (1, 2)`: item `1` was never appended to the occupied bucket of
item `0`, so item `2` is only compared against `0`. -/
theorem search_same_misses_equivalent_pair :
    eqOneTwo 1 2 = true ∧ eqOneTwo 2 1 = true ∧
    search_same [0, 1, 2] (fun _ : Nat => 0) eqOneTwo = Option.none := by
  decide

/-! ## Patterns (`rustc_front::hir::Pat` / `PatKind`)

Only the shape walked by `bindings` matters.  `Vec<Pat>` and
`Option<Pat>` fields become the mutually inductive `Pats`, `OptPat`,
`OptPats` and `FieldPats` (a `FieldPat` is its field name plus the
sub-pattern `pat.node.pat`).  Sub-expressions of literal and range
patterns, paths, qualified paths and binding modes carry no bindings and
are reduced to opaque numeric tags; identifier names are numeric interned
symbols. -/

mutual

inductive Pat : Type where
  | box (p : Pat)
  | ref (p : Pat) (mutbl : Bool)
  | tupleStruct (path : Nat) (args : OptPats)
  | ident (bindingMode : Nat) (name : Nat) (asPat : OptPat)
  | structP (path : Nat) (fields : FieldPats) (dotdot : Bool)
  | tup (pats : Pats)
  | vec (front : Pats) (mid : OptPat) (back : Pats)
  | lit (e : Nat)
  | qpath (q : Nat)
  | range (lo hi : Nat)
  | wild
  | pathP (path : Nat)

inductive Pats : Type where
  | nil
  | cons (p : Pat) (tail : Pats)

inductive OptPat : Type where
  | none
  | some (p : Pat)

inductive OptPats : Type where
  | none
  | some (ps : Pats)

inductive FieldPats : Type where
  | nil
  | cons (fieldName : Nat) (p : Pat) (tail : FieldPats)

end

/-- Insert a binding only when the key is vacant (the
`if let Entry::Vacant(v) = map.entry(..) { v.insert(..) }` idiom);
appending keeps discovery order and never duplicates a key. -/
def mapInsertVacant (k v : Nat) (m : List (Nat × Nat)) : List (Nat × Nat) :=
  match assocFind? k m with
  | Option.some _ => m
  | Option.none => m ++ [(k, v)]

/-! ### `bindings` (copies.rs, lines 180–231)

`bindings_impl` threads the mutable `HashMap<InternedString, Ty>`
through the recursive pattern walk; `patTy` models `cx.tcx.pat_ty`,
applied to the identifier pattern node itself. -/

mutual

def bindings_impl (patTy : Pat → Nat) (p : Pat) (m : List (Nat × Nat)) : List (Nat × Nat) :=
  match p with
  | .box q => bindings_impl patTy q m
  | .ref q _ => bindings_impl patTy q m
  | .tupleStruct _ (.some ps) => bindings_pats patTy ps m
  | .tupleStruct _ .none => m
  | .ident bm name asPat =>
    bindings_optPat patTy asPat (mapInsertVacant name (patTy (.ident bm name asPat)) m)
  | .structP _ fields _ => bindings_fields patTy fields m
  | .tup ps => bindings_pats patTy ps m
  | .vec front mid back =>
    bindings_pats patTy back (bindings_optPat patTy mid (bindings_pats patTy front m))
  | .lit _ => m
  | .qpath _ => m
  | .range _ _ => m
  | .wild => m
  | .pathP _ => m

def bindings_pats (patTy : Pat → Nat) (ps : Pats) (m : List (Nat × Nat)) : List (Nat × Nat) :=
  match ps with
  | .nil => m
  | .cons p tail => bindings_pats patTy tail (bindings_impl patTy p m)

def bindings_optPat (patTy : Pat → Nat) (op : OptPat) (m : List (Nat × Nat)) : List (Nat × Nat) :=
  match op with
  | .none => m
  | .some p => bindings_impl patTy p m

def bindings_fields (patTy : Pat → Nat) (fs : FieldPats) (m : List (Nat × Nat)) : List (Nat × Nat) :=
  match fs with
  | .nil => m
  | .cons _ p tail => bindings_fields patTy tail (bindings_impl patTy p m)

end

/-- `bindings` (copies.rs 181): run the walk on an empty map. -/
def bindings (patTy : Pat → Nat) (p : Pat) : List (Nat × Nat) :=
  bindings_impl patTy p []

/-- `HashMap` equality (`bindings(..) == bindings(..)`): same key set and
same value at every key, discovery order irrelevant. -/
def mapEq (m1 m2 : List (Nat × Nat)) : Bool :=
  m1.all (fun kv => assocFind? kv.1 m2 == Option.some kv.2) &&
    m2.all (fun kv => assocFind? kv.1 m1 == Option.some kv.2)

/-! ### Specification-side occurrence list

`occList` enumerates every identifier-binding occurrence of a pattern,
with its type, in the exact order `bindings_impl` visits them — no
deduplication.  "The type recorded for a name is that of the first
occurrence encountered" is then: looking up a name in `bindings` equals
taking the first entry for that name in `occList`. -/

mutual

def occList (patTy : Pat → Nat) (p : Pat) : List (Nat × Nat) :=
  match p with
  | .box q => occList patTy q
  | .ref q _ => occList patTy q
  | .tupleStruct _ (.some ps) => occPats patTy ps
  | .tupleStruct _ .none => []
  | .ident bm name asPat =>
    (name, patTy (.ident bm name asPat)) :: occOptPat patTy asPat
  | .structP _ fields _ => occFields patTy fields
  | .tup ps => occPats patTy ps
  | .vec front mid back =>
    occPats patTy front ++ occOptPat patTy mid ++ occPats patTy back
  | .lit _ => []
  | .qpath _ => []
  | .range _ _ => []
  | .wild => []
  | .pathP _ => []

def occPats (patTy : Pat → Nat) (ps : Pats) : List (Nat × Nat) :=
  match ps with
  | .nil => []
  | .cons p tail => occList patTy p ++ occPats patTy tail

def occOptPat (patTy : Pat → Nat) (op : OptPat) : List (Nat × Nat) :=
  match op with
  | .none => []
  | .some p => occList patTy p

def occFields (patTy : Pat → Nat) (fs : FieldPats) : List (Nat × Nat) :=
  match fs with
  | .nil => []
  | .cons _ p tail => occList patTy p ++ occFields patTy tail

end

@[simp] theorem optOr_none_left {α : Type} (o : Option α) : optOr Option.none o = o := rfl

@[simp] theorem optOr_some_left {α : Type} (v : α) (o : Option α) :
    optOr (Option.some v) o = Option.some v := rfl

@[simp] theorem optOr_none_right {α : Type} (o : Option α) : optOr o Option.none = o := by
  cases o <;> rfl

theorem optOr_assoc {α : Type} (a b c : Option α) :
    optOr (optOr a b) c = optOr a (optOr b c) := by
  cases a <;> rfl

theorem assocFind?_append {V : Type} (k : Nat) (m1 m2 : List (Nat × V)) :
    assocFind? k (m1 ++ m2) = optOr (assocFind? k m1) (assocFind? k m2) := by
  induction m1 with
  | nil => simp [assocFind?]
  | cons kv rest ih =>
    obtain ⟨n, v⟩ := kv
    by_cases hk : k = n
    · subst hk; simp [assocFind?]
    · simp [assocFind?, hk, ih]

theorem assocFind?_insertVacant (k name v : Nat) (m : List (Nat × Nat)) :
    assocFind? k (mapInsertVacant name v m) =
      optOr (assocFind? k m) (assocFind? k [(name, v)]) := by
  cases hf : assocFind? name m with
  | some w =>
    simp only [mapInsertVacant, hf]
    cases hk : assocFind? k m with
    | some u => simp [hk]
    | none =>
      by_cases he : k = name
      · subst he; rw [hf] at hk; cases hk
      · simp [hk, assocFind?, he]
  | none => simp [mapInsertVacant, hf, assocFind?_append]

theorem not_mem_keys_of_find_none {V : Type} (k : Nat) (m : List (Nat × V))
    (h : assocFind? k m = Option.none) : k ∉ m.map Prod.fst := by
  induction m with
  | nil => simp
  | cons kv rest ih =>
    obtain ⟨n, v⟩ := kv
    by_cases hk : k = n
    · subst hk; simp [assocFind?] at h
    · simp only [assocFind?, beq_iff_eq, hk, if_false] at h
      simp [hk, ih h]

theorem nodupKeys_insertVacant (k v : Nat) (m : List (Nat × Nat))
    (h : (m.map Prod.fst).Nodup) : ((mapInsertVacant k v m).map Prod.fst).Nodup := by
  cases hf : assocFind? k m with
  | some w => simpa [mapInsertVacant, hf] using h
  | none =>
    have hk := not_mem_keys_of_find_none k m hf
    simp only [mapInsertVacant, hf, List.map_append]
    refine List.nodup_append.mpr ⟨h, List.nodup_singleton k, ?_⟩
    intro x hx hx'
    simp only [List.map_cons, List.map_nil, List.mem_singleton] at hx'
    subst hx'
    exact hk hx

/-! ### Lookups into `bindings` are first-occurrence lookups -/

mutual

theorem find_bindings_impl (patTy : Pat → Nat) (p : Pat) (m : List (Nat × Nat)) (k : Nat) :
    assocFind? k (bindings_impl patTy p m) =
      optOr (assocFind? k m) (assocFind? k (occList patTy p)) := by
  cases p with
  | box q => simpa [bindings_impl, occList] using find_bindings_impl patTy q m k
  | ref q mutbl => simpa [bindings_impl, occList] using find_bindings_impl patTy q m k
  | tupleStruct path args =>
    cases args with
    | none => simp [bindings_impl, occList, assocFind?]
    | some ps => simpa [bindings_impl, occList] using find_bindings_pats patTy ps m k
  | ident bm name asPat =>
    show assocFind? k (bindings_optPat patTy asPat
        (mapInsertVacant name (patTy (.ident bm name asPat)) m)) = _
    rw [find_bindings_optPat patTy asPat
        (mapInsertVacant name (patTy (.ident bm name asPat)) m) k,
      assocFind?_insertVacant, optOr_assoc]
    have hcons : assocFind? k (occList patTy (.ident bm name asPat)) =
        optOr (assocFind? k [(name, patTy (.ident bm name asPat))])
          (assocFind? k (occOptPat patTy asPat)) := by
      by_cases hk : k = name
      · subst hk; simp [occList, assocFind?]
      · simp [occList, assocFind?, hk]
    rw [hcons]
  | structP path fields dotdot =>
    simpa [bindings_impl, occList] using find_bindings_fields patTy fields m k
  | tup ps => simpa [bindings_impl, occList] using find_bindings_pats patTy ps m k
  | vec front mid back =>
    show assocFind? k (bindings_pats patTy back
        (bindings_optPat patTy mid (bindings_pats patTy front m))) = _
    rw [find_bindings_pats patTy back
        (bindings_optPat patTy mid (bindings_pats patTy front m)) k,
      find_bindings_optPat patTy mid (bindings_pats patTy front m) k,
      find_bindings_pats patTy front m k]
    simp [occList, assocFind?_append, optOr_assoc]
  | lit e => simp [bindings_impl, occList, assocFind?]
  | qpath q => simp [bindings_impl, occList, assocFind?]
  | range lo hi => simp [bindings_impl, occList, assocFind?]
  | wild => simp [bindings_impl, occList, assocFind?]
  | pathP path => simp [bindings_impl, occList, assocFind?]

theorem find_bindings_pats (patTy : Pat → Nat) (ps : Pats) (m : List (Nat × Nat)) (k : Nat) :
    assocFind? k (bindings_pats patTy ps m) =
      optOr (assocFind? k m) (assocFind? k (occPats patTy ps)) := by
  cases ps with
  | nil => simp [bindings_pats, occPats, assocFind?]
  | cons p tail =>
    show assocFind? k (bindings_pats patTy tail (bindings_impl patTy p m)) = _
    rw [find_bindings_pats patTy tail (bindings_impl patTy p m) k,
      find_bindings_impl patTy p m k]
    simp [occPats, assocFind?_append, optOr_assoc]

theorem find_bindings_optPat (patTy : Pat → Nat) (op : OptPat) (m : List (Nat × Nat)) (k : Nat) :
    assocFind? k (bindings_optPat patTy op m) =
      optOr (assocFind? k m) (assocFind? k (occOptPat patTy op)) := by
  cases op with
  | none => simp [bindings_optPat, occOptPat, assocFind?]
  | some p => simpa [bindings_optPat, occOptPat] using find_bindings_impl patTy p m k

theorem find_bindings_fields (patTy : Pat → Nat) (fs : FieldPats) (m : List (Nat × Nat)) (k : Nat) :
    assocFind? k (bindings_fields patTy fs m) =
      optOr (assocFind? k m) (assocFind? k (occFields patTy fs)) := by
  cases fs with
  | nil => simp [bindings_fields, occFields, assocFind?]
  | cons fieldName p tail =>
    show assocFind? k (bindings_fields patTy tail (bindings_impl patTy p m)) = _
    rw [find_bindings_fields patTy tail (bindings_impl patTy p m) k,
      find_bindings_impl patTy p m k]
    simp [occFields, assocFind?_append, optOr_assoc]

end

/-! ### The binding map never duplicates a key -/

mutual

theorem nodup_bindings_impl (patTy : Pat → Nat) (p : Pat) (m : List (Nat × Nat))
    (h : (m.map Prod.fst).Nodup) : ((bindings_impl patTy p m).map Prod.fst).Nodup := by
  cases p with
  | box q => exact nodup_bindings_impl patTy q m h
  | ref q mutbl => exact nodup_bindings_impl patTy q m h
  | tupleStruct path args =>
    cases args with
    | none => exact h
    | some ps => exact nodup_bindings_pats patTy ps m h
  | ident bm name asPat =>
    exact nodup_bindings_optPat patTy asPat _
      (nodupKeys_insertVacant name (patTy (.ident bm name asPat)) m h)
  | structP path fields dotdot => exact nodup_bindings_fields patTy fields m h
  | tup ps => exact nodup_bindings_pats patTy ps m h
  | vec front mid back =>
    exact nodup_bindings_pats patTy back _
      (nodup_bindings_optPat patTy mid _ (nodup_bindings_pats patTy front m h))
  | lit e => exact h
  | qpath q => exact h
  | range lo hi => exact h
  | wild => exact h
  | pathP path => exact h

theorem nodup_bindings_pats (patTy : Pat → Nat) (ps : Pats) (m : List (Nat × Nat))
    (h : (m.map Prod.fst).Nodup) : ((bindings_pats patTy ps m).map Prod.fst).Nodup := by
  cases ps with
  | nil => exact h
  | cons p tail => exact nodup_bindings_pats patTy tail _ (nodup_bindings_impl patTy p m h)

theorem nodup_bindings_optPat (patTy : Pat → Nat) (op : OptPat) (m : List (Nat × Nat))
    (h : (m.map Prod.fst).Nodup) : ((bindings_optPat patTy op m).map Prod.fst).Nodup := by
  cases op with
  | none => exact h
  | some p => exact nodup_bindings_impl patTy p m h

theorem nodup_bindings_fields (patTy : Pat → Nat) (fs : FieldPats) (m : List (Nat × Nat))
    (h : (m.map Prod.fst).Nodup) : ((bindings_fields patTy fs m).map Prod.fst).Nodup := by
  cases fs with
  | nil => exact h
  | cons fieldName p tail =>
    exact nodup_bindings_fields patTy tail _ (nodup_bindings_impl patTy p m h)

end

/-- C10: the binding walk records each bound name at most once (the key
list of the resulting map has no duplicates), and the type found for a
name in the map is the one of the first occurrence of that name in the
walk order — later occurrences of the same name do not overwrite it. -/
theorem bindings_first_occurrence_wins (patTy : Pat → Nat) (p : Pat) :
    ((bindings patTy p).map Prod.fst).Nodup ∧
    ∀ k, assocFind? k (bindings patTy p) = assocFind? k (occList patTy p) := by
  constructor
  · exact nodup_bindings_impl patTy p [] (by simp)
  · intro k
    simpa [bindings, assocFind?] using find_bindings_impl patTy p [] k

/-! ## Expressions (`rustc_front::hir`)

Only the structure that `check_expr`, `if_sequence` and
`lint_match_arms` inspect is kept: an expression is a node id plus a
kind; the kinds are `ExprIf(cond, then_block, else)`, `ExprBlock`,
`ExprMatch(scrutinee, arms, source)` and an opaque remainder.  Blocks
are opaque to this file (they are only hashed and compared through the
`SpanlessHash`/`SpanlessEq` parameters), so a `Block` is its node id.
An `Arm` is its pattern list, optional guard and body. -/

structure Block : Type where
  id : Nat

/-- `rustc::middle::hir::MatchSource` of the era: a normal `match` or one
of the desugared forms. -/
inductive MatchSource : Type where
  | normal
  | ifLetDesugar (containsElseClause : Bool)
  | whileLetDesugar
  | forLoopDesugar
deriving DecidableEq

mutual

inductive Expr : Type where
  | mk (id : Nat) (node : ExprKind)

inductive ExprKind : Type where
  | exprIf (cond : Expr) (thenBlock : Block) (els : OptExpr)
  | exprBlock (b : Block)
  | exprMatch (scrutinee : Expr) (arms : Arms) (src : MatchSource)
  | exprOther (tag : Nat)

inductive OptExpr : Type where
  | none
  | some (e : Expr)

inductive Arm : Type where
  | mk (pats : Pats) (guard : OptExpr) (body : Expr)

inductive Arms : Type where
  | nil
  | cons (a : Arm) (tail : Arms)

end

def Expr.id : Expr → Nat
  | .mk i _ => i

def Expr.node : Expr → ExprKind
  | .mk _ n => n

def Arm.pats : Arm → Pats
  | .mk ps _ _ => ps

def Arm.body : Arm → Expr
  | .mk _ _ b => b

def Arms.toList : Arms → List Arm
  | .nil => []
  | .cons a tail => a :: Arms.toList tail

/-- `lhs.pats[0]`: the first pattern of an arm.  HIR guarantees every arm
has at least one pattern; on the (unreachable) empty list the default is
the wildcard pattern. -/
def firstPat (a : Arm) : Pat :=
  match a.pats with
  | .nil => Pat.wild
  | .cons p _ => p

/-! ## `if_sequence` (copies.rs, lines 155–178) -/

/-- The `while let ExprIf(..) = expr.node` loop of `if_sequence`,
accumulating conditions and then-blocks; returns the accumulated lists
together with the value of `expr` after the loop (on `else: None` the
loop `break`s, leaving `expr` at the current `if`). -/
def if_sequence_loop (conds : List Expr) (blocks : List Block) :
    Expr → List Expr × List Block × Expr
  | .mk _ (.exprIf cond thenBlock (.some els)) =>
    if_sequence_loop (conds ++ [cond]) (blocks ++ [thenBlock]) els
  | .mk i (.exprIf cond thenBlock .none) =>
    (conds ++ [cond], blocks ++ [thenBlock], .mk i (.exprIf cond thenBlock .none))
  | e => (conds, blocks, e)

/-- `if_sequence` (copies.rs 155–178): walk the `if`/`else if` chain
collecting conditions and then-blocks, then append the final
unconditional `else { .. }` block, if any, to the block list. -/
def if_sequence (expr : Expr) : List Expr × List Block :=
  let r := if_sequence_loop [] [] expr
  if r.2.1.isEmpty then
    (r.1, r.2.1)
  else
    match (r.2.2).node with
    | .exprBlock b => (r.1, r.2.1 ++ [b])
    | _ => (r.1, r.2.1)

/-! ## Lint drivers (copies.rs, lines 86–150) and the entry point

The pieces supplied by the surrounding framework — `SpanlessHash`,
`SpanlessEq` (plain and with `ignore_fn`), `in_macro`,
`get_parent_expr` and `cx.tcx.pat_ty` — are collected in an opaque
context record. -/

structure Ctx : Type where
  inMacro : Expr → Bool
  parent : Expr → Option Expr
  hashBlock : Block → Nat
  eqBlock : Block → Block → Bool
  hashExpr : Expr → Nat
  eqExprIgnoreFn : Expr → Expr → Bool
  eqExpr : Expr → Expr → Bool
  patTy : Pat → Nat

/-- `lint_same_then_else` (copies.rs 87–104): duplicate search over the
block list, hashing with `hash_block` and comparing with `eq_block`.
The returned pair stands for the emitted `IF_SAME_THEN_ELSE` diagnostic. -/
def lint_same_then_else (cx : Ctx) (blocks : List Block) : Option (Block × Block) :=
  search_same blocks cx.hashBlock cx.eqBlock

/-- `lint_same_cond` (copies.rs 107–124): duplicate search over the
condition list, hashing with `hash_expr` and comparing with
`ignore_fn().eq_expr`.  The returned pair stands for the emitted
`IFS_SAME_COND` diagnostic. -/
def lint_same_cond (cx : Ctx) (conds : List Expr) : Option (Expr × Expr) :=
  search_same conds cx.hashExpr cx.eqExprIgnoreFn

/-- The arm hash of `lint_match_arms`: hash of the arm body. -/
def arm_hash (cx : Ctx) (a : Arm) : Nat :=
  cx.hashExpr a.body

/-- The arm comparator of `lint_match_arms`: body equivalence plus
equality of the binding maps of the first pattern of each arm. -/
def arm_eq (cx : Ctx) (lhs rhs : Arm) : Bool :=
  cx.eqExpr lhs.body rhs.body &&
    mapEq (bindings cx.patTy (firstPat lhs)) (bindings cx.patTy (firstPat rhs))

/-- `lint_match_arms` (copies.rs 127–150): only a `match` with
`MatchSource::Normal` is scanned; the returned pair stands for the
emitted `MATCH_SAME_ARMS` diagnostic. -/
def lint_match_arms (cx : Ctx) (expr : Expr) : Option (Arm × Arm) :=
  match expr.node with
  | .exprMatch _ arms MatchSource.normal =>
    search_same arms.toList (arm_hash cx) (arm_eq cx)
  | _ => Option.none

/-- The three findings one `check_expr` visit can produce. -/
structure Findings : Type where
  sameThenElse : Option (Block × Block)
  sameCond : Option (Expr × Expr)
  matchArms : Option (Arm × Arm)

/-- The body of `check_expr` after its two early returns: extract the
`if` chain and run all three duplicate scans. -/
def check_expr_run (cx : Ctx) (expr : Expr) : Findings :=
  let cb := if_sequence expr
  ⟨lint_same_then_else cx cb.2, lint_same_cond cx cb.1, lint_match_arms cx expr⟩

/-- `check_expr` (copies.rs 69–84): skip expressions inside macros, skip
an `if` that is the `else` branch of its parent `if` (it is checked as
part of the parent chain), otherwise run the three scans. -/
def check_expr (cx : Ctx) (expr : Expr) : Findings :=
  if cx.inMacro expr then
    ⟨Option.none, Option.none, Option.none⟩
  else
    match cx.parent expr with
    | Option.some (.mk _ (.exprIf _ _ (.some elseExpr))) =>
      if elseExpr.id == expr.id then
        ⟨Option.none, Option.none, Option.none⟩
      else
        check_expr_run cx expr
    | _ => check_expr_run cx expr

/-! ## The `if`/`else if`/`else` chain shape -/

/-- One link of a chained conditional: a guard and its then-block. -/
structure IfLink : Type where
  cond : Expr
  thenB : Block

/-- Build the expression `if l₁.cond { l₁.thenB } else if … else { els }`
from a non-empty list of links and an optional trailing else block. -/
def buildChain (l : IfLink) (ls : List IfLink) (els : Option Block) : Expr :=
  match ls with
  | [] =>
    match els with
    | Option.none => .mk 0 (.exprIf l.cond l.thenB .none)
    | Option.some b => .mk 0 (.exprIf l.cond l.thenB (.some (.mk 0 (.exprBlock b))))
  | l2 :: rest => .mk 0 (.exprIf l.cond l.thenB (.some (buildChain l2 rest els)))

/-- Last link of a non-empty chain. -/
def lastLink (l : IfLink) : List IfLink → IfLink
  | [] => l
  | l2 :: rest => lastLink l2 rest

/-- The value of the loop variable of `if_sequence` after the walk over a
built chain: the last `if` when there is no trailing else, otherwise the
trailing else block expression. -/
def chainFinal (l : IfLink) (ls : List IfLink) (els : Option Block) : Expr :=
  match els with
  | Option.none =>
    .mk 0 (.exprIf (lastLink l ls).cond (lastLink l ls).thenB .none)
  | Option.some b => .mk 0 (.exprBlock b)

theorem if_sequence_loop_chain (l : IfLink) (ls : List IfLink) (els : Option Block)
    (conds : List Expr) (blocks : List Block) :
    if_sequence_loop conds blocks (buildChain l ls els) =
      (conds ++ (l :: ls).map IfLink.cond, blocks ++ (l :: ls).map IfLink.thenB,
        chainFinal l ls els) := by
  induction ls generalizing l conds blocks with
  | nil =>
    cases els with
    | none => simp [buildChain, if_sequence_loop, chainFinal, lastLink]
    | some b => simp [buildChain, if_sequence_loop, chainFinal]
  | cons l2 rest ih =>
    have h2 := ih l2 (conds ++ [l.cond]) (blocks ++ [l.thenB])
    simp only [buildChain, if_sequence_loop, h2, chainFinal, lastLink]
    cases els <;> simp

/-- C5: on a chained conditional, `if_sequence` returns the guards of the
links in source order as the condition list and the then-blocks in source
order as the block list; a trailing unconditional else block is appended
to the block list and contributes no condition. -/
theorem if_sequence_chain (l : IfLink) (ls : List IfLink) (els : Option Block) :
    if_sequence (buildChain l ls els) =
      ((l :: ls).map IfLink.cond, (l :: ls).map IfLink.thenB ++ els.toList) := by
  unfold if_sequence
  rw [if_sequence_loop_chain l ls els [] []]
  cases els with
  | none => simp [chainFinal, Expr.node]
  | some b => simp [chainFinal, Expr.node]

/-! ## `search_same` only returns `eq`-related pairs -/

theorem bucket_check_some {T : Type} (eq : T → T → Bool) (x o : T) (b : List T)
    (h : bucket_check eq x b = Option.some o) : eq o x = true := by
  induction b with
  | nil => cases h
  | cons y ys ih =>
    cases hy : eq y x with
    | true =>
      simp only [bucket_check, hy, if_true, Option.some.injEq] at h
      subst h
      exact hy
    | false =>
      simp only [bucket_check, hy, Bool.false_eq_true, if_false] at h
      exact ih h

theorem search_same_step_some_eq {T : Type} (hash : T → Nat) (eq : T → T → Bool)
    (m m' : List (Nat × List T)) (z x y : T)
    (h : search_same_step hash eq m z = (Option.some (x, y), m')) : eq x y = true := by
  unfold search_same_step at h
  cases hf : assocFind? (hash z) m with
  | none => simp only [hf] at h; simp at h
  | some bucket =>
    simp only [hf] at h
    cases hb : bucket_check eq z bucket with
    | none => simp only [hb] at h; simp at h
    | some o =>
      simp only [hb] at h
      simp only [Prod.mk.injEq, Option.some.injEq] at h
      obtain ⟨⟨h1, h2⟩, _⟩ := h
      rw [← h1, ← h2]
      exact bucket_check_some eq z o bucket hb

theorem search_same_loop_some_eq {T : Type} (hash : T → Nat) (eq : T → T → Bool)
    (l : List T) (m : List (Nat × List T)) (x y : T)
    (h : search_same_loop hash eq l m = Option.some (x, y)) : eq x y = true := by
  induction l generalizing m with
  | nil => cases h
  | cons z zs ih =>
    rw [search_same_loop] at h
    cases hs : search_same_step hash eq m z with
    | mk o m' =>
      rw [hs] at h
      cases o with
      | some p =>
        simp only [Option.some.injEq] at h
        subst h
        exact search_same_step_some_eq hash eq m m' z x y hs
      | none => exact ih m' h

theorem search_same_some_eq {T : Type} (exprs : List T) (hash : T → Nat)
    (eq : T → T → Bool) (x y : T)
    (h : search_same exprs hash eq = Option.some (x, y)) : eq x y = true := by
  unfold search_same at h
  split at h
  · cases h
  · split at h
    · split at h
      · rename_i a b rest
        split at h
        · rename_i heq
          simp only [Option.some.injEq, Prod.mk.injEq] at h
          obtain ⟨h1, h2⟩ := h
          subst h1
          subst h2
          exact heq
        · cases h
      · cases h
    · exact search_same_loop_some_eq hash eq exprs [] x y h

/-! ## Binding-compatibility suppression of `MATCH_SAME_ARMS` -/

theorem assocFind?_some_mem {V : Type} (k : Nat) (v : V) (m : List (Nat × V))
    (h : assocFind? k m = Option.some v) : (k, v) ∈ m := by
  induction m with
  | nil => cases h
  | cons kv rest ih =>
    obtain ⟨n, w⟩ := kv
    by_cases hk : k = n
    · subst hk
      simp only [assocFind?, beq_self_eq_true, if_true, Option.some.injEq] at h
      subst h
      exact List.mem_cons_self _ _
    · simp only [assocFind?, beq_iff_eq, hk, if_false] at h
      exact List.mem_cons_of_mem _ (ih h)

/-- Two maps that give the same key different values are not `mapEq`. -/
theorem mapEq_false_of_conflicting (m1 m2 : List (Nat × Nat)) (k tyA tyB : Nat)
    (h1 : assocFind? k m1 = Option.some tyA) (h2 : assocFind? k m2 = Option.some tyB)
    (hne : tyA ≠ tyB) : mapEq m1 m2 = false := by
  have hmem := assocFind?_some_mem k tyA m1 h1
  cases hall : m1.all (fun kv => assocFind? kv.1 m2 == Option.some kv.2) with
  | false => unfold mapEq; rw [hall]; rfl
  | true =>
    exfalso
    have hone := (List.all_eq_true.mp hall) (k, tyA) hmem
    rw [show ((k, tyA).1 : Nat) = k from rfl, h2] at hone
    simp only [beq_iff_eq, Option.some.injEq] at hone
    exact hne hone.symm

/-- C3: a pair of match arms whose bodies are structurally equivalent but
whose first patterns bind some name to two different static types is
never the reported duplicate pair: the binding maps must be equal in
addition to body equivalence. -/
theorem match_arms_binding_type_suppression (cx : Ctx) (expr : Expr) (armA armB : Arm)
    (name tyA tyB : Nat)
    (_hbody : cx.eqExpr armA.body armB.body = true)
    (hA : assocFind? name (bindings cx.patTy (firstPat armA)) = Option.some tyA)
    (hB : assocFind? name (bindings cx.patTy (firstPat armB)) = Option.some tyB)
    (hne : tyA ≠ tyB) :
    lint_match_arms cx expr ≠ Option.some (armA, armB) := by
  intro hsome
  have heq : arm_eq cx armA armB = true := by
    unfold lint_match_arms at hsome
    split at hsome
    · exact search_same_some_eq _ _ _ armA armB hsome
    · cases hsome
  have hfalse := mapEq_false_of_conflicting _ _ name tyA tyB hA hB hne
  unfold arm_eq at heq
  rw [hfalse] at heq
  simp at heq

/-- C7: the arm comparator of `lint_match_arms` looks only at `pats[0]`:
replacing the `|`-alternative patterns after the first, on either arm,
cannot change the comparison's outcome. -/
theorem arm_eq_uses_only_first_pattern (cx : Ctx) (p q : Pat) (ps ps' qs qs' : Pats)
    (g g' : OptExpr) (b b' : Expr) :
    arm_eq cx (.mk (.cons p ps) g b) (.mk (.cons q qs) g' b') =
      arm_eq cx (.mk (.cons p ps') g b) (.mk (.cons q qs') g' b') := rfl

/-! ## Entry-point gating -/

/-- C6: an `if` expression that is the direct `else` branch of its parent
`if` is never the starting point of a scan: `check_expr` produces no
finding of any of the three shapes for it, so a chain is only reported
from its outermost `if`. -/
theorem check_expr_skips_else_branch (cx : Ctx) (expr : Expr) (pid : Nat) (c : Expr)
    (t : Block) (els : Expr)
    (hp : cx.parent expr = Option.some (.mk pid (.exprIf c t (.some els))))
    (hid : els.id = expr.id) :
    check_expr cx expr = ⟨Option.none, Option.none, Option.none⟩ := by
  unfold check_expr
  cases hm : cx.inMacro expr with
  | true => simp
  | false => simp [hp, hid]

/-- C8: the macro predicate is consulted at the entry point: an
expression inside macro-expanded code produces no finding of any of the
three shapes. -/
theorem check_expr_skips_macro (cx : Ctx) (expr : Expr)
    (h : cx.inMacro expr = true) :
    check_expr cx expr = ⟨Option.none, Option.none, Option.none⟩ := by
  simp [check_expr, h]

/-- C9: `lint_match_arms` scans only a `match` whose source is normal
user-written match syntax; any desugared match yields no arm-duplicate
finding. -/
theorem match_arms_only_normal_source (cx : Ctx) (i : Nat) (scrut : Expr) (arms : Arms)
    (src : MatchSource) (h : src ≠ MatchSource.normal) :
    lint_match_arms cx (.mk i (.exprMatch scrut arms src)) = Option.none := by
  cases src with
  | normal => exact absurd rfl h
  | ifLetDesugar b => rfl
  | whileLetDesugar => rfl
  | forLoopDesugar => rfl

/-! ## Concrete inputs for the witnesses -/

/-- An `if` expression standing in else position: `if x { .. }`. -/
def exprElseIf : Expr := .mk 3 (.exprIf (.mk 4 (.exprOther 0)) ⟨5⟩ .none)

/-- Its parent: `if y { .. } else if x { .. }`. -/
def exprParentIf : Expr := .mk 1 (.exprIf (.mk 2 (.exprOther 1)) ⟨6⟩ (.some exprElseIf))

/-- Context whose parent lookup always answers `exprParentIf` and whose
comparators accept everything. -/
def cxSkip : Ctx :=
  ⟨fun _ => false, fun _ => Option.some exprParentIf, fun _ => 0, fun _ _ => true,
    fun _ => 0, fun _ _ => true, fun _ _ => true, fun _ => 0⟩

/-- Context reporting every expression as macro-generated. -/
def cxMacro : Ctx :=
  ⟨fun _ => true, fun _ => Option.none, fun _ => 0, fun _ _ => true, fun _ => 0,
    fun _ _ => true, fun _ _ => true, fun _ => 0⟩

/-- Type oracle that types an identifier pattern by its binding mode. -/
def patTyBind : Pat → Nat
  | .ident bm _ _ => bm
  | _ => 99

/-- Arm `p7 @ type 0 => body`. -/
def armBindA : Arm := .mk (.cons (.ident 0 7 .none) .nil) .none (.mk 30 (.exprOther 4))

/-- Arm binding the same name `7` at a different type. -/
def armBindB : Arm := .mk (.cons (.ident 1 7 .none) .nil) .none (.mk 31 (.exprOther 4))

/-- Context whose body comparator accepts everything and which types
patterns with `patTyBind`. -/
def cxBind : Ctx :=
  ⟨fun _ => false, fun _ => Option.none, fun _ => 0, fun _ _ => true, fun _ => 0,
    fun _ _ => true, fun _ _ => true, patTyBind⟩

/-- A normal two-arm `match` over the two conflicting arms. -/
def exprMatchBind : Expr :=
  .mk 20 (.exprMatch (.mk 21 (.exprOther 3))
    (.cons armBindA (.cons armBindB .nil)) MatchSource.normal)

/-- Witness for C3: two one-pattern arms with comparator-equal bodies,
binding name `7` at types `0` and `1` respectively, are not reported. -/
theorem match_arms_binding_type_suppression_witness :
    cxBind.eqExpr armBindA.body armBindB.body = true ∧
    assocFind? 7 (bindings cxBind.patTy (firstPat armBindA)) = Option.some 0 ∧
    assocFind? 7 (bindings cxBind.patTy (firstPat armBindB)) = Option.some 1 ∧
    (0 : Nat) ≠ 1 ∧
    lint_match_arms cxBind exprMatchBind ≠ Option.some (armBindA, armBindB) :=
  ⟨rfl, rfl, rfl, by decide,
    match_arms_binding_type_suppression cxBind exprMatchBind armBindA armBindB 7 0 1
      rfl rfl rfl (by decide)⟩

/-- Witness for C6: the inner `if` of a two-link chain, sitting in the
parent's else position, triggers no scan. -/
theorem check_expr_skips_else_branch_witness :
    cxSkip.parent exprElseIf =
      Option.some (.mk 1 (.exprIf (.mk 2 (.exprOther 1)) ⟨6⟩ (.some exprElseIf))) ∧
    Expr.id exprElseIf = Expr.id exprElseIf ∧
    check_expr cxSkip exprElseIf = ⟨Option.none, Option.none, Option.none⟩ :=
  ⟨rfl, rfl,
    check_expr_skips_else_branch cxSkip exprElseIf 1 (.mk 2 (.exprOther 1)) ⟨6⟩
      exprElseIf rfl rfl⟩

/-- Witness for C8: a macro-generated expression triggers no scan. -/
theorem check_expr_skips_macro_witness :
    cxMacro.inMacro exprElseIf = true ∧
    check_expr cxMacro exprElseIf = ⟨Option.none, Option.none, Option.none⟩ :=
  ⟨rfl, check_expr_skips_macro cxMacro exprElseIf rfl⟩

/-- Witness for C9: a desugared `for`-loop match is not scanned. -/
theorem match_arms_only_normal_source_witness :
    MatchSource.forLoopDesugar ≠ MatchSource.normal ∧
    lint_match_arms cxSkip
        (.mk 9 (.exprMatch (.mk 10 (.exprOther 2)) Arms.nil MatchSource.forLoopDesugar)) =
      Option.none :=
  ⟨by decide,
    match_arms_only_normal_source cxSkip 9 (.mk 10 (.exprOther 2)) Arms.nil
      MatchSource.forLoopDesugar (by decide)⟩

end Copies
